import Mathlib

/-!
Shallow embedding of the PlantUML SVG patcher (src/plantumlsvgpatcher.cpp).
Buffers are modelled as `List Char`.  The QCString helpers the patcher calls
(find, findRev, mid, left, stripWhiteSpace) and util.cpp's substitute are
embedded with their exact semantics; the external collaborators (file streams,
the reference resolver, externalRef, addHtmlExtensionIfMissing, the regex
engine behind the caption pattern) are modelled from the spec as parameters
or as faithful implementations of their documented behaviour.
-/

set_option maxRecDepth 100000

namespace SvgPatch

/-- Does `needle` match at the head of `hay` (needle entirely contained)? -/
def headMatches : List Char → List Char → Bool
  | [], _ => true
  | _ :: _, [] => false
  | a :: as, b :: bs => a == b && headMatches as bs

/-- Scan of `QCString::find`: first index `i ≥` the running index where the
needle matches, walking the suffixes of the haystack. -/
def strFindAux (needle : List Char) : List Char → Nat → Option Nat
  | [], _ => none
  | l@(_ :: rest), i => if headMatches needle l then some i else strFindAux needle rest (i + 1)

/-- QCString::find(str, index): `-1` (here `none`) when the start index is at
or past the end, otherwise the first occurrence at or after `start`. -/
def strFind (hay needle : List Char) (start : Nat) : Option Nat :=
  if start < hay.length then strFindAux needle (hay.drop start) start else none

/-- Downward scan of `QCString::findRev`: greatest position `≤ j` where the
needle matches. -/
def strFindRevAux (hay needle : List Char) : Nat → Option Nat
  | 0 => if headMatches needle hay then some 0 else none
  | j + 1 =>
    if headMatches needle (hay.drop (j + 1)) then some (j + 1) else strFindRevAux hay needle j

/-- QCString::findRev(str, index): last occurrence at a position `≤ index`
(index clamped so the needle fits; `-1`/`none` when impossible). -/
def strFindRev (hay needle : List Char) (idx : Nat) : Option Nat :=
  if needle.length ≤ hay.length ∧ idx ≤ hay.length then
    strFindRevAux hay needle (min idx (hay.length - needle.length))
  else none

/-- QCString::findRev(c) with the default index `-1`: position of the last
occurrence of the character, scanning from the end. -/
def charFindRevLast (hay : List Char) (c : Char) : Option Nat :=
  match hay with
  | [] => none
  | _ :: _ => strFindRevAux hay [c] (hay.length - 1)

/-- QCString::mid(index, len): `len` characters starting at `index`, clamped. -/
def listMid (l : List Char) (index len : Nat) : List Char := (l.drop index).take len

/-- Whitespace as tested by qcstring's qisspace. -/
def isWs (c : Char) : Bool := c == ' ' || c == '\t' || c == '\n' || c == '\r'

/-- QCString::stripWhiteSpace: drop leading and trailing whitespace. -/
def stripWhiteSpace (l : List Char) : List Char :=
  ((l.dropWhile isWs).reverse.dropWhile isWs).reverse

/-- Fuel-indexed worker for util.cpp's substitute: left-to-right,
non-overlapping replacement of every occurrence of `src` by `dst`.  The fuel
only needs to dominate the length of the list. -/
def substituteAux (src dst : List Char) : Nat → List Char → List Char
  | _, [] => []
  | 0, l => l
  | fuel + 1, c :: rest =>
    if !src.isEmpty && headMatches src (c :: rest) then
      dst ++ substituteAux src dst fuel (List.drop (src.length - 1) rest)
    else
      c :: substituteAux src dst fuel rest

/-- util.cpp substitute(s, src, dst): replace every occurrence of `src` in `s`
by `dst`, scanning left to right without overlap. -/
def substitute (s src dst : List Char) : List Char := substituteAux src dst s.length s

/-- Number of positions of `s` where `needle` matches (used to state how many
onclick attributes a produced tag carries). -/
def countOcc (needle : List Char) : List Char → Nat
  | [] => 0
  | l@(_ :: rest) => (if !needle.isEmpty && headMatches needle l then 1 else 0) + countOcc needle rest

/-- Modelled from the spec: one attempt of the caption pattern
`<text[^>]*>([^<]+)</text>` anchored at the head of `l`; returns the capture.
The regex engine itself (src/regex.cpp) is not part of the sources, so the
documented leftmost-match semantics of the pattern is implemented directly. -/
def matchTextAt (l : List Char) : Option (List Char) :=
  if headMatches "<text".toList l then
    match (l.drop 5).dropWhile (fun c => !(c == '>')) with
    | '>' :: afterGt =>
      let cap := afterGt.takeWhile (fun c => !(c == '<'))
      if !cap.isEmpty && headMatches "</text>".toList (afterGt.dropWhile (fun c => !(c == '<'))) then
        some cap
      else none
    | _ => none
  else none

/-- Leftmost match of the caption pattern: try each start position in turn. -/
def extractAux : List Char → Option (List Char)
  | [] => none
  | l@(_ :: rest) =>
    match matchTextAt l with
    | some cap => some cap
    | none => extractAux rest

/-- PlantumlSvgPatcher::extractRefNameFromAnchorContent: capture of the first
`<text ...>NAME</text>` in the anchor content, trimmed; empty when absent. -/
def extractRefNameFromAnchorContent (anchorContent : List Char) : List Char :=
  match extractAux anchorContent with
  | some cap => stripWhiteSpace cap
  | none => []

/-- Descriptor returned by the external reference resolver (DocRef): optional
file component, optional in-file anchor, and the external-project tag fed to
externalRef. -/
structure RefDescriptor where
  file : List Char
  anchor : List Char
  refTag : List Char
deriving DecidableEq

/-- Modelled from the spec: the external collaborators of resolveRefToUrl.
`resolve` stands for createDocParser/createRef/DocNodeAST (none models the
case where no DocRef node is produced), `externalRef` for the external-scope
prefix computed from m_relPath and the descriptor's ref tag, and
`addHtmlExtensionIfMissing` for extension qualification of the file part. -/
structure Resolver where
  resolve : List Char → Option RefDescriptor
  externalRef : List Char → List Char
  addHtmlExtensionIfMissing : List Char → List Char

/-- PlantumlSvgPatcher::resolveRefToUrl (src lines 225-266): empty string when
the descriptor has neither file nor anchor, otherwise the external prefix,
the extension-qualified file (if any) and `#anchor` (if any). -/
def resolveRefToUrl (R : Resolver) (refName : List Char) : List Char :=
  match R.resolve refName with
  | none => []
  | some df =>
    if !df.file.isEmpty || !df.anchor.isEmpty then
      R.externalRef df.refTag
        ++ (if !df.file.isEmpty then R.addHtmlExtensionIfMissing df.file else [])
        ++ (if !df.anchor.isEmpty then '#' :: df.anchor else [])
    else
      []

/-- Escaping of the reference name (src lines 160-161): backslashes doubled
first, then single quotes prefixed with a backslash. -/
def escapeRefName (refName : List Char) : List Char :=
  substitute (substitute refName "\\".toList "\\\\".toList) "'".toList "\\'".toList

/-- The onclick payload built at src line 163. -/
def onclickHandlerFor (escapedRefName : List Char) : List Char :=
  "window.parent.postMessage(\x7btype:'unresolved-ref',name:'".toList
    ++ escapedRefName ++ "'\x7d,'*');return false;".toList

/-- The bare placeholder `href="\ref"`. -/
def plainRef : List Char := "href=\"\\ref\"".toList

/-- The namespaced placeholder `xlink:href="\ref"`. -/
def xlinkRef : List Char := "xlink:href=\"\\ref\"".toList

/-- Body of the rewrite (src lines 146-198): given the opening tag and the
extracted reference name, produce the replacement opening tag. -/
def buildNewOpeningTag (R : Resolver) (openingTag refName : List Char) : List Char :=
  let url := resolveRefToUrl R refName
  let hasHref := (strFind openingTag plainRef 0).isSome
  let hasXlinkHref := (strFind openingTag xlinkRef 0).isSome
  if url.isEmpty then
    let onclickHandler := onclickHandlerFor (escapeRefName refName)
    let t1 := if hasHref then substitute openingTag plainRef "href=\"#\"".toList else openingTag
    let t2 := if hasXlinkHref then substitute t1 xlinkRef "xlink:href=\"#\"".toList else t1
    match charFindRevLast t2 '>' with
    | none => t2
    | some cb =>
      t2.take cb ++ " onclick=\"".toList ++ onclickHandler ++ "\"".toList ++ t2.drop cb
  else
    let t1 :=
      if hasHref then substitute openingTag plainRef ("href=\"".toList ++ url ++ "\"".toList)
      else openingTag
    if hasXlinkHref then substitute t1 xlinkRef ("xlink:href=\"".toList ++ url ++ "\"".toList)
    else t1

/-- Choice of the next placeholder (src lines 90-99): the plain spelling wins
when it exists and sits strictly left of the namespaced one, otherwise the
namespaced one when it exists. -/
def pickRefPos (hrefPos xlinkPos : Option Nat) : Option Nat :=
  match hrefPos, xlinkPos with
  | some h, some x => if h < x then some h else some x
  | some h, none => some h
  | none, some x => some x
  | none, none => none

/-- State threaded through the while-loop of patchBareRefs: the buffer and the
search cursor. -/
structure PatchState where
  buf : List Char
  searchStart : Nat
deriving DecidableEq

/-- One iteration of the while-loop of patchBareRefs (src lines 84-205).
`none` models the `break` when no placeholder remains. -/
def patchStep (R : Resolver) (s : PatchState) : Option PatchState :=
  let result := s.buf
  let hrefPos := strFind result plainRef s.searchStart
  let xlinkPos := strFind result xlinkRef s.searchStart
  match pickRefPos hrefPos xlinkPos with
  | none => none
  | some refPos =>
    match strFindRev result "<a".toList refPos with
    | none => some ⟨result, refPos + 1⟩
    | some aTagStart =>
      match strFind result "</a>".toList refPos with
      | none => some ⟨result, refPos + 1⟩
      | some aTagClose =>
        match strFind result ">".toList aTagStart with
        | none => some ⟨result, refPos + 1⟩
        | some aTagOpenEnd =>
          if aTagOpenEnd > aTagClose then some ⟨result, refPos + 1⟩
          else
            let openingTag := listMid result aTagStart (aTagOpenEnd - aTagStart + 1)
            let anchorContent := listMid result (aTagOpenEnd + 1) (aTagClose - aTagOpenEnd - 1)
            let refName := extractRefNameFromAnchorContent anchorContent
            if refName.isEmpty then some ⟨result, refPos + 1⟩
            else
              let newOpeningTag := buildNewOpeningTag R openingTag refName
              some ⟨result.take aTagStart ++ newOpeningTag ++ result.drop (aTagOpenEnd + 1),
                    aTagStart + newOpeningTag.length⟩

/-- The while-loop of patchBareRefs, indexed by fuel; when the fuel runs out
the current buffer is returned (the C++ loop has no such bound and can in
fact run forever, see the theorems below). -/
def patchLoop (R : Resolver) : Nat → PatchState → List Char
  | 0, s => s.buf
  | n + 1, s =>
    match patchStep R s with
    | none => s.buf
    | some s2 => patchLoop R n s2

/-- PlantumlSvgPatcher::patchBareRefs (src lines 75-208), fuel-indexed. -/
def patchBareRefs (R : Resolver) (fuel : Nat) (content : List Char) : List Char :=
  patchLoop R fuel ⟨content, 0⟩

/-- Iterated loop body: `none` once the loop has exited. -/
def stepN (R : Resolver) : Nat → PatchState → Option PatchState
  | 0, s => some s
  | n + 1, s =>
    match patchStep R s with
    | none => none
    | some s2 => stepN R n s2

/-- Gate tested at src line 51: does the buffer contain either placeholder? -/
def hasBareRef (content : List Char) : Bool :=
  (strFind content plainRef 0).isSome || (strFind content xlinkRef 0).isSome

/-- PlantumlSvgPatcher::run (src lines 31-73).  The storage collaborator is
modelled from the spec by the two booleans: `readable` is openInputStream
succeeding, `writable` is openOutputStream succeeding.  The result carries
the success flag, the file content after the call, and whether a write-back
happened. -/
def run (R : Resolver) (fuel : Nat) (content : List Char) (readable writable : Bool) :
    Bool × List Char × Bool :=
  if !readable then (false, content, false)
  else if (strFind content plainRef 0).isNone && (strFind content xlinkRef 0).isNone then
    (true, content, false)
  else if !writable then (false, content, false)
  else (true, patchBareRefs R fuel content, true)

/-- Modelled from the spec: the per-character escaping described for the
onclick payload — a backslash becomes two backslashes, a single quote becomes
backslash-quote, anything else is kept. -/
def specEscapeChar (c : Char) : List Char :=
  if c = '\\' then ['\\', '\\'] else if c = '\'' then ['\\', '\''] else [c]

/-- Modelled from the spec: single-pass escaping of a whole name. -/
def specEscape (s : List Char) : List Char :=
  s.foldr (fun c acc => specEscapeChar c ++ acc) []

/-- Resolver fixture resolving every name to file `foo.html` (no anchor, empty
external prefix, extension already present so qualification is the identity). -/
def rcResolved : Resolver := ⟨fun _ => some ⟨"foo.html".toList, [], []⟩, fun _ => [], fun s => s⟩

/-- Resolver fixture on which every lookup fails (no DocRef produced). -/
def ruUnresolved : Resolver := ⟨fun _ => none, fun _ => [], fun s => s⟩

/-- Buffer whose placeholder sits between the end of the opening tag and the
matching `</a>`: enclosed by a preceding `<a`, an opening tag ending in `>`
before `</a>`, and a non-empty caption — yet not inside the opening tag. -/
def bufContent : List Char := "<a x=\"1\">href=\"\\ref\"<text>foo</text></a>".toList

/-- The spec's single-anchor test input. -/
def c3in : List Char := "<a href=\"\\ref\"><text>foo</text></a>".toList

/-- The spec's expected unresolved output for `c3in`. -/
def c3out : List Char :=
  ("<a href=\"#\" onclick=\"window.parent.postMessage(\x7btype:'unresolved-ref'"
    ++ ",name:'foo'\x7d,'*');return false;\"><text>foo</text></a>").toList

/-- The spec's expected resolved output for `c3in`. -/
def c4out : List Char := "<a href=\"foo.html\"><text>foo</text></a>".toList

/-- Anchor carrying both placeholder spellings in its opening tag. -/
def c7in : List Char := "<a href=\"\\ref\" xlink:href=\"\\ref\"><text>foo</text></a>".toList

/-- Expected resolved output for `c7in`: both attributes bound to the URL. -/
def c7outRes : List Char := "<a href=\"foo.html\" xlink:href=\"foo.html\"><text>foo</text></a>".toList

/-- Expected unresolved output for `c7in`: both attributes bound to `#` and
one shared onclick handler. -/
def c7outUnres : List Char :=
  ("<a href=\"#\" xlink:href=\"#\" onclick=\"window.parent.postMessage(\x7btype:"
    ++ "'unresolved-ref',name:'foo'\x7d,'*');return false;\"><text>foo</text></a>").toList

/-- Marker of an inserted onclick attribute. -/
def onclickKey : List Char := " onclick=\"".toList

/-! Helper lemmas shared by the claim theorems. -/

theorem patchLoop_succ (R : Resolver) (n : Nat) (s : PatchState) :
    patchLoop R (n + 1) s =
      match patchStep R s with
      | none => s.buf
      | some s2 => patchLoop R n s2 := rfl

theorem stepN_succ (R : Resolver) (n : Nat) (s : PatchState) :
    stepN R (n + 1) s =
      match patchStep R s with
      | none => none
      | some s2 => stepN R n s2 := rfl

theorem stepOnBufContent_zero :
    patchStep rcResolved ⟨bufContent, 0⟩ = some ⟨bufContent, 9⟩ := by decide

theorem stepOnBufContent_nine :
    patchStep rcResolved ⟨bufContent, 9⟩ = some ⟨bufContent, 9⟩ := by decide

theorem stepN_bufContent_fixed (n : Nat) :
    stepN rcResolved n ⟨bufContent, 9⟩ = some ⟨bufContent, 9⟩ := by
  induction n with
  | zero => rfl
  | succ n ih =>
    rw [stepN_succ, stepOnBufContent_nine]
    exact ih

theorem patchLoop_bufContent_fixed (n : Nat) :
    patchLoop rcResolved n ⟨bufContent, 9⟩ = bufContent := by
  induction n with
  | zero => rfl
  | succ n ih =>
    rw [patchLoop_succ, stepOnBufContent_nine]
    exact ih

/-- C1: the claim asserts that the patching loop terminates on every input,
with iterations bounded by the buffer length.  The code violates this: on
`bufContent` (length 40, placeholder at offset 9 enclosed in a well-formed
anchor whose opening tag ends at offset 8) the loop body maps the state with
cursor 9 to itself, so no number of iterations ever reaches the `break`. -/
theorem c1_patch_loop_diverges :
    ∀ n : Nat, stepN rcResolved n ⟨bufContent, 0⟩ ≠ none := by
  intro n
  cases n with
  | zero => simp [stepN]
  | succ n =>
    rw [stepN_succ, stepOnBufContent_zero]
    show stepN rcResolved n ⟨bufContent, 9⟩ ≠ none
    rw [stepN_bufContent_fixed]
    simp

/-- C2: the claim asserts that no placeholder remains after patching any
buffer whose placeholders lie inside well-formed anchors.  On `bufContent`
every stated well-formedness condition holds (preceding `<a` at 0, opening
tag ending at 8 before `</a>` at 36, non-empty caption `foo`), yet the loop
never changes the buffer, so the placeholder at offset 9 survives patching at
every fuel. -/
theorem c2_wellformed_placeholder_survives :
    (∀ n : Nat, patchBareRefs rcResolved n bufContent = bufContent) ∧
    strFind bufContent plainRef 0 = some 9 ∧
    strFindRev bufContent "<a".toList 9 = some 0 ∧
    strFind bufContent "</a>".toList 9 = some 36 ∧
    strFind bufContent ">".toList 0 = some 8 ∧
    extractRefNameFromAnchorContent (listMid bufContent 9 27) = "foo".toList := by
  refine ⟨?_, by decide, by decide, by decide, by decide, by decide⟩
  intro n
  cases n with
  | zero => rfl
  | succ n =>
    show patchLoop rcResolved (n + 1) ⟨bufContent, 0⟩ = bufContent
    rw [patchLoop_succ, stepOnBufContent_zero]
    exact patchLoop_bufContent_fixed n

/-- C9: the claim asserts every anchor candidate's opening tag is either fully
rewritten to one of the two exact shapes or untouched.  On `bufContent` with
an unresolved resolver, the code rewrites the same opening tag repeatedly,
accumulating one extra onclick attribute per iteration (two after two
iterations, three after three) while the placeholder itself survives — a tag
shape outside both defined outcomes. -/
theorem c9_opening_tag_gains_duplicate_onclick :
    countOcc onclickKey bufContent = 0 ∧
    countOcc onclickKey (patchBareRefs ruUnresolved 2 bufContent) = 2 ∧
    countOcc onclickKey (patchBareRefs ruUnresolved 3 bufContent) = 3 ∧
    (strFind (patchBareRefs ruUnresolved 2 bufContent) plainRef 0).isSome = true := by
  exact ⟨by decide, by decide, by decide, by decide⟩


/-! Substitute characterisation lemmas (fuel irrelevance and unfolding). -/

theorem substituteAux_congr (src dst : List Char) :
    ∀ f g l, l.length ≤ f → l.length ≤ g →
      substituteAux src dst f l = substituteAux src dst g l := by
  intro f
  induction f with
  | zero =>
    intro g l hf _
    have hl : l = [] := List.length_eq_zero.mp (Nat.le_zero.mp hf)
    subst hl
    cases g <;> rfl
  | succ f ih =>
    intro g l hf hg
    cases l with
    | nil => cases g <;> rfl
    | cons c rest =>
      cases g with
      | zero => simp at hg
      | succ g =>
        simp only [substituteAux]
        simp only [List.length_cons] at hf hg
        have hd := List.length_drop (src.length - 1) rest
        by_cases h : (!src.isEmpty && headMatches src (c :: rest)) = true
        · rw [if_pos h, if_pos h]
          exact congrArg (dst ++ ·)
            (ih g (List.drop (src.length - 1) rest) (by omega) (by omega))
        · rw [if_neg h, if_neg h]
          exact congrArg (c :: ·) (ih g rest (by omega) (by omega))

theorem substitute_nil_left (src dst : List Char) : substitute [] src dst = [] := rfl

theorem substitute_cons (src dst : List Char) (c : Char) (rest : List Char) :
    substitute (c :: rest) src dst =
      if !src.isEmpty && headMatches src (c :: rest) then
        dst ++ substitute (List.drop (src.length - 1) rest) src dst
      else c :: substitute rest src dst := by
  show substituteAux src dst (rest.length + 1) (c :: rest) = _
  simp only [substituteAux]
  by_cases h : (!src.isEmpty && headMatches src (c :: rest)) = true
  · rw [if_pos h, if_pos h]
    exact congrArg (dst ++ ·)
      (substituteAux_congr src dst rest.length (List.drop (src.length - 1) rest).length
        (List.drop (src.length - 1) rest)
        (by rw [List.length_drop]; omega) (le_refl _))
  · rw [if_neg h, if_neg h]
    rfl

theorem substitute_cons_single (a : Char) (dst : List Char) (c : Char) (rest : List Char) :
    substitute (c :: rest) [a] dst =
      (if c = a then dst else [c]) ++ substitute rest [a] dst := by
  have hcond : (!(List.isEmpty [a]) && headMatches [a] (c :: rest)) = (a == c) := by
    simp [headMatches]
  rw [substitute_cons, hcond]
  by_cases hc : c = a
  · subst hc
    simp
  · have hab : (a == c) = false := by
      simp [beq_eq_false_iff_ne]
      exact fun h => hc h.symm
    simp [hab, hc]

theorem substitute_append_single (a : Char) (dst : List Char) :
    ∀ xs ys, substitute (xs ++ ys) [a] dst = substitute xs [a] dst ++ substitute ys [a] dst := by
  intro xs
  induction xs with
  | nil => intro ys; simp [substitute_nil_left]
  | cons c rest ih =>
    intro ys
    rw [List.cons_append, substitute_cons_single, substitute_cons_single, ih, List.append_assoc]

theorem escape_step (c : Char) (rest : List Char) :
    escapeRefName (c :: rest) = specEscapeChar c ++ escapeRefName rest := by
  show substitute (substitute (c :: rest) "\\".toList "\\\\".toList) "'".toList "\\'".toList = _
  have h1 : "\\".toList = ['\\'] := rfl
  have h2 : "'".toList = ['\''] := rfl
  rw [h1, h2, substitute_cons_single, substitute_append_single]
  congr 1
  by_cases hc1 : c = '\\'
  · subst hc1; decide
  · by_cases hc2 : c = '\''
    · subst hc2; decide
    · rw [if_neg hc1, substitute_cons_single, substitute_nil_left, if_neg hc2]
      simp [specEscapeChar, hc1, hc2]

/-- C5: the reference name is escaped by doubling every backslash first and
then prefixing every single quote with a backslash, in that order; on the
spec's example the name is escaped as stated, and in general the two-pass
substitution equals the spec's single-pass per-character escaping (so quotes
introduced by the first pass are never re-escaped). -/
theorem c5_escaping_order :
    escapeRefName "a\\b'c".toList = "a\\\\b\\'c".toList ∧
    ∀ s : List Char, escapeRefName s = specEscape s := by
  refine ⟨by decide, fun s => ?_⟩
  induction s with
  | nil => rfl
  | cons c rest ih => rw [escape_step, ih]; rfl

/-- C6: when the buffer contains neither placeholder spelling, run succeeds,
the content is returned byte-identical, and no write-back happens. -/
theorem c6_gate_leaves_file_untouched (R : Resolver) (fuel : Nat) (writable : Bool)
    (content : List Char)
    (h1 : strFind content plainRef 0 = none) (h2 : strFind content xlinkRef 0 = none) :
    run R fuel content true writable = (true, content, false) := by
  simp [run, h1, h2]

theorem c6_gate_leaves_file_untouched_witness :
    run ruUnresolved 0 "<svg></svg>".toList true false =
      (true, "<svg></svg>".toList, false) :=
  c6_gate_leaves_file_untouched ruUnresolved 0 false "<svg></svg>".toList (by decide) (by decide)

/-! Find characterisation lemmas. -/

theorem strFindAux_spec (needle : List Char) :
    ∀ l i j, strFindAux needle l i = some j →
      i ≤ j ∧ headMatches needle (l.drop (j - i)) = true := by
  intro l
  induction l with
  | nil => intro i j h; simp [strFindAux] at h
  | cons c rest ih =>
    intro i j h
    simp only [strFindAux] at h
    by_cases hm : headMatches needle (c :: rest) = true
    · rw [if_pos hm] at h
      obtain rfl : i = j := by injection h
      exact ⟨le_refl i, by simpa using hm⟩
    · rw [if_neg hm] at h
      obtain ⟨h1, h2⟩ := ih (i + 1) j h
      refine ⟨by omega, ?_⟩
      have hji : j - i = (j - (i + 1)) + 1 := by omega
      rw [hji, List.drop_succ_cons]
      exact h2

theorem strFind_headMatches (hay needle : List Char) (start i : Nat)
    (h : strFind hay needle start = some i) :
    headMatches needle (hay.drop i) = true := by
  unfold strFind at h
  by_cases hs : start < hay.length
  · rw [if_pos hs] at h
    obtain ⟨h1, h2⟩ := strFindAux_spec needle (hay.drop start) start i h
    rw [List.drop_drop] at h2
    have he : start + (i - start) = i := by omega
    rwa [he] at h2
  · rw [if_neg hs] at h
    exact absurd h (by simp)

theorem headMatches_ne_heads (a b : Char) (as bs l : List Char) (hne : a ≠ b)
    (ha : headMatches (a :: as) l = true) (hb : headMatches (b :: bs) l = true) : False := by
  cases l with
  | nil => simp [headMatches] at ha
  | cons c cs =>
    simp only [headMatches, Bool.and_eq_true, beq_iff_eq] at ha hb
    exact hne (ha.1.trans hb.1.symm)

/-- C8: the next placeholder is the occurrence with the lowest offset at or
after the cursor — the selection equals the minimum whenever both spellings
are found, and falls back to whichever exists otherwise; moreover the two
spellings can never be found at exactly the same offset (their first
characters differ), so the tie-break in favour of the plain spelling is
observationally irrelevant. -/
theorem c8_nearest_occurrence_selection :
    (∀ h x : Nat, pickRefPos (some h) (some x) = some (min h x)) ∧
    (∀ h : Nat, pickRefPos (some h) none = some h) ∧
    (∀ x : Nat, pickRefPos none (some x) = some x) ∧
    pickRefPos none none = none ∧
    (∀ (hay : List Char) (start i : Nat),
      strFind hay plainRef start = some i → strFind hay xlinkRef start ≠ some i) := by
  refine ⟨fun h x => ?_, fun h => rfl, fun x => rfl, rfl, fun hay start i hp hx => ?_⟩
  · simp only [pickRefPos]
    by_cases hlt : h < x
    · rw [if_pos hlt, Nat.min_eq_left (Nat.le_of_lt hlt)]
    · rw [if_neg hlt, Nat.min_eq_right (Nat.le_of_not_lt hlt)]
  · have h1 := strFind_headMatches hay plainRef start i hp
    have h2 := strFind_headMatches hay xlinkRef start i hx
    have e1 : plainRef = 'h' :: "ref=\"\\ref\"".toList := by decide
    have e2 : xlinkRef = 'x' :: "link:href=\"\\ref\"".toList := by decide
    rw [e1] at h1
    rw [e2] at h2
    exact headMatches_ne_heads 'h' 'x' _ _ _ (by decide) h1 h2

theorem c8_nearest_occurrence_selection_witness :
    pickRefPos (some 3) (some 7) = some (min 3 7) ∧
    strFind plainRef xlinkRef 0 ≠ some 0 :=
  ⟨c8_nearest_occurrence_selection.1 3 7,
   c8_nearest_occurrence_selection.2.2.2.2 plainRef 0 0 (by decide)⟩

/-- C10: run fails exactly when the file cannot be opened for reading, or it
passes the placeholder gate and cannot be opened for writing; in every
failure case the content is left unchanged and nothing is written. -/
theorem c10_failure_iff_open_fails (R : Resolver) (fuel : Nat) (content : List Char)
    (readable writable : Bool) :
    ((run R fuel content readable writable).1 = false ↔
      readable = false ∨ (hasBareRef content = true ∧ writable = false)) ∧
    ((run R fuel content readable writable).1 = false →
      (run R fuel content readable writable).2.1 = content ∧
      (run R fuel content readable writable).2.2 = false) := by
  cases readable with
  | false => simp [run]
  | true =>
    cases hg : ((strFind content plainRef 0).isNone && (strFind content xlinkRef 0).isNone) with
    | true =>
      have hh : hasBareRef content = false := by
        simp only [Bool.and_eq_true, Option.isNone_iff_eq_none] at hg
        simp [hasBareRef, hg.1, hg.2]
      simp [run, hg, hh]
    | false =>
      have hh : hasBareRef content = true := by
        cases e1 : strFind content plainRef 0 with
        | some v => simp [hasBareRef, e1]
        | none =>
          cases e2 : strFind content xlinkRef 0 with
          | some v => simp [hasBareRef, e1, e2]
          | none => rw [e1, e2] at hg; simp at hg
      cases writable with
      | false => simp [run, hg, hh]
      | true => simp [run, hg, hh]

theorem c10_failure_iff_open_fails_witness :
    (run ruUnresolved 0 bufContent true false).1 = false ∧
    (run ruUnresolved 0 bufContent true false).2.1 = bufContent ∧
    (run ruUnresolved 0 bufContent true false).2.2 = false := by
  have h := c10_failure_iff_open_fails ruUnresolved 0 bufContent true false
  have hfail : (run ruUnresolved 0 bufContent true false).1 = false :=
    h.1.mpr (Or.inr ⟨by decide, rfl⟩)
  exact ⟨hfail, (h.2 hfail).1, (h.2 hfail).2⟩

/-! Lemmas for the general unresolved-rewrite shape. -/

theorem strFindAux_none_no_match (needle : List Char) (h0 : needle ≠ []) :
    ∀ l i, strFindAux needle l i = none → ∀ j, headMatches needle (l.drop j) = false := by
  intro l
  induction l with
  | nil =>
    intro i _ j
    rw [List.drop_nil]
    cases needle with
    | nil => exact absurd rfl h0
    | cons a as => rfl
  | cons c rest ih =>
    intro i h j
    simp only [strFindAux] at h
    by_cases hm : headMatches needle (c :: rest) = true
    · rw [if_pos hm] at h
      exact absurd h (by simp)
    · rw [if_neg hm] at h
      cases j with
      | zero =>
        rw [List.drop_zero]
        exact Bool.eq_false_iff.mpr (fun hh => hm hh)
      | succ j =>
        rw [List.drop_succ_cons]
        exact ih (i + 1) h j

theorem strFind_none_no_match (hay needle : List Char) (h0 : needle ≠ [])
    (h : strFind hay needle 0 = none) : ∀ j, headMatches needle (hay.drop j) = false := by
  intro j
  unfold strFind at h
  by_cases hs : 0 < hay.length
  · rw [if_pos hs] at h
    have hx := strFindAux_none_no_match needle h0 (hay.drop 0) 0 h j
    rwa [List.drop_zero] at hx
  · have hnil : hay = [] := by simpa using hs
    subst hnil
    rw [List.drop_nil]
    cases needle with
    | nil => exact absurd rfl h0
    | cons a as => rfl

theorem substitute_no_match_id (needle dst : List Char) :
    ∀ l, (∀ j, headMatches needle (l.drop j) = false) → substitute l needle dst = l := by
  intro l
  induction l with
  | nil => intro _; rfl
  | cons c rest ih =>
    intro h
    rw [substitute_cons]
    have h0 := h 0
    rw [List.drop_zero] at h0
    rw [if_neg (by simp [h0])]
    exact congrArg (c :: ·) (ih fun j => by
      have hj := h (j + 1)
      rwa [List.drop_succ_cons] at hj)

theorem substitute_id_of_strFind_none (l needle dst : List Char) (h0 : needle ≠ [])
    (h : strFind l needle 0 = none) : substitute l needle dst = l :=
  substitute_no_match_id needle dst l (strFind_none_no_match l needle h0 h)

theorem headMatches_length : ∀ needle l : List Char,
    headMatches needle l = true → needle.length ≤ l.length := by
  intro needle
  induction needle with
  | nil => intro l _; simp
  | cons a as ih =>
    intro l h
    cases l with
    | nil => simp [headMatches] at h
    | cons b bs =>
      simp only [headMatches, Bool.and_eq_true] at h
      have := ih bs h.2
      simp only [List.length_cons]
      omega

theorem headMatches_all : ∀ needle l : List Char,
    headMatches needle l = true → needle.length = l.length → needle = l := by
  intro needle
  induction needle with
  | nil =>
    intro l _ hl
    exact (List.length_eq_zero.mp hl.symm).symm
  | cons a as ih =>
    intro l h hl
    cases l with
    | nil => simp [headMatches] at h
    | cons b bs =>
      simp only [headMatches, Bool.and_eq_true, beq_iff_eq] at h
      simp only [List.length_cons, Nat.add_right_cancel_iff] at hl
      rw [h.1, ih bs h.2 hl]

theorem substitute_singleton_gt (needle dst : List Char) (h0 : needle ≠ [])
    (hgt : '>' ∉ needle) : substitute ['>'] needle dst = ['>'] := by
  rw [substitute_cons]
  have hm : headMatches needle ['>'] = false := by
    cases needle with
    | nil => exact absurd rfl h0
    | cons a as =>
      by_cases hac : a = '>'
      · subst hac
        exact absurd (List.mem_cons_self '>' as) hgt
      · simp only [headMatches]
        have hne : (a == '>') = false := beq_eq_false_iff_ne.mpr hac
        simp [hne]
  rw [if_neg (by simp [hm])]
  rw [substitute_nil_left]

theorem substitute_ends_gt (needle dst : List Char) (h0 : needle ≠ []) (hgt : '>' ∉ needle) :
    ∀ n b, b.length ≤ n → ∃ b2, substitute (b ++ ['>']) needle dst = b2 ++ ['>'] := by
  intro n
  induction n with
  | zero =>
    intro b hb
    have hbnil : b = [] := List.length_eq_zero.mp (Nat.le_zero.mp hb)
    subst hbnil
    exact ⟨[], substitute_singleton_gt needle dst h0 hgt⟩
  | succ n ih =>
    intro b hb
    cases b with
    | nil => exact ⟨[], substitute_singleton_gt needle dst h0 hgt⟩
    | cons c bs =>
      rw [List.cons_append, substitute_cons]
      simp only [List.length_cons] at hb
      by_cases hm : (!needle.isEmpty && headMatches needle (c :: (bs ++ ['>']))) = true
      · rw [if_pos hm]
        have hmm : headMatches needle (c :: (bs ++ ['>'])) = true := by
          simp only [Bool.and_eq_true] at hm
          exact hm.2
        have hlen := headMatches_length needle _ hmm
        simp at hlen
        have hk : needle.length - 1 ≤ bs.length := by
          rcases Nat.lt_or_ge needle.length (bs.length + 2) with hlt | hge
          · omega
          · exfalso
            have heq : needle.length = (c :: (bs ++ ['>'])).length := by
              simp
              omega
            have hall := headMatches_all needle _ hmm heq
            refine hgt ?_
            rw [hall]
            exact List.mem_cons_of_mem c (List.mem_append_right bs (by simp))
        rw [List.drop_append_of_le_length hk]
        obtain ⟨b2, hb2⟩ := ih (List.drop (needle.length - 1) bs)
          (by rw [List.length_drop]; omega)
        exact ⟨dst ++ b2, by rw [hb2, List.append_assoc]⟩
      · rw [if_neg hm]
        obtain ⟨b2, hb2⟩ := ih bs (by omega)
        exact ⟨c :: b2, by rw [hb2]; rfl⟩

theorem charFindRevLast_concat_gt (b : List Char) :
    charFindRevLast (b ++ ['>']) '>' = some b.length := by
  cases b with
  | nil => decide
  | cons x bs =>
    show strFindRevAux (x :: (bs ++ ['>'])) ['>'] ((x :: (bs ++ ['>'])).length - 1) = _
    have hlen : (x :: (bs ++ ['>'])).length - 1 = bs.length + 1 := by
      simp
    rw [hlen]
    simp only [strFindRevAux]
    have hdrop : (x :: (bs ++ ['>'])).drop (bs.length + 1) = ['>'] := by
      rw [List.drop_succ_cons]
      exact List.drop_left bs ['>']
    rw [hdrop]
    simp [headMatches]

theorem buildNewOpeningTag_unresolved_shape (R : Resolver) (b refName : List Char)
    (hurl : resolveRefToUrl R refName = []) :
    ((strFind (b ++ ['>']) xlinkRef 0).isSome = true →
      buildNewOpeningTag R (b ++ ['>']) refName =
        (substitute (substitute (b ++ ['>']) plainRef "href=\"#\"".toList) xlinkRef
            "xlink:href=\"#\"".toList).dropLast
          ++ " onclick=\"".toList ++ onclickHandlerFor (escapeRefName refName)
          ++ "\"".toList ++ ['>']) ∧
    ((strFind (b ++ ['>']) xlinkRef 0).isSome = false →
      buildNewOpeningTag R (b ++ ['>']) refName =
        (substitute (b ++ ['>']) plainRef "href=\"#\"".toList).dropLast
          ++ " onclick=\"".toList ++ onclickHandlerFor (escapeRefName refName)
          ++ "\"".toList ++ ['>']) ∧
    (substitute (substitute (b ++ ['>']) plainRef "href=\"#\"".toList) xlinkRef
        "xlink:href=\"#\"".toList).getLast? = some '>' ∧
    (substitute (b ++ ['>']) plainRef "href=\"#\"".toList).getLast? = some '>' := by
  have hple : plainRef ≠ [] := by decide
  have hxle : xlinkRef ≠ [] := by decide
  have hpgt : '>' ∉ plainRef := by decide
  have hxgt : '>' ∉ xlinkRef := by decide
  obtain ⟨b1, hb1⟩ := substitute_ends_gt plainRef "href=\"#\"".toList hple hpgt b.length b (le_refl _)
  obtain ⟨b2, hb2⟩ := substitute_ends_gt xlinkRef "xlink:href=\"#\"".toList hxle hxgt
    b1.length b1 (le_refl _)
  have ht1 : (if (strFind (b ++ ['>']) plainRef 0).isSome = true
      then substitute (b ++ ['>']) plainRef "href=\"#\"".toList else (b ++ ['>']))
      = substitute (b ++ ['>']) plainRef "href=\"#\"".toList := by
    by_cases hh : (strFind (b ++ ['>']) plainRef 0).isSome = true
    · rw [if_pos hh]
    · rw [if_neg hh]
      refine (substitute_id_of_strFind_none _ _ _ hple ?_).symm
      cases ho : strFind (b ++ ['>']) plainRef 0 with
      | none => rfl
      | some v => rw [ho] at hh; simp at hh
  refine ⟨fun hx => ?_, fun hx => ?_, ?_, ?_⟩
  · simp only [buildNewOpeningTag, hurl]
    rw [if_pos (by decide : (List.isEmpty ([] : List Char)) = true)]
    rw [ht1, if_pos hx, hb1, hb2, charFindRevLast_concat_gt]
    show List.take b2.length (b2 ++ ['>']) ++ " onclick=\"".toList
        ++ onclickHandlerFor (escapeRefName refName) ++ "\"".toList
        ++ List.drop b2.length (b2 ++ ['>']) = _
    rw [List.take_left, List.drop_left, List.dropLast_concat]
  · simp only [buildNewOpeningTag, hurl]
    rw [if_pos (by decide : (List.isEmpty ([] : List Char)) = true)]
    rw [ht1, if_neg (by simp [hx]), hb1, charFindRevLast_concat_gt]
    show List.take b1.length (b1 ++ ['>']) ++ " onclick=\"".toList
        ++ onclickHandlerFor (escapeRefName refName) ++ "\"".toList
        ++ List.drop b1.length (b1 ++ ['>']) = _
    rw [List.take_left, List.drop_left, List.dropLast_concat]
  · rw [hb1, hb2, List.getLast?_concat]
  · rw [hb1, List.getLast?_concat]

/-- C3: unresolved rewrite shape.  On the spec's anchor with an unresolved
resolver the output is exactly the placeholder attribute bound to `#` with
the single onclick handler inserted immediately before the final `>` of the
opening tag, independent of any extra fuel; and in general, for every opening
tag ending in `>` whose reference is unresolved, the produced tag is the
attribute-substituted tag (each present placeholder spelling replaced by its
`#` form, absent spellings left alone, since substitution is the identity
without an occurrence) with exactly one onclick attribute spliced in
immediately before the tag's final character, which is still the closing
`>`. -/
theorem c3_unresolved_exact_output :
    (∀ n : Nat, patchBareRefs ruUnresolved (n + 2) c3in = c3out) ∧
    (∀ (R : Resolver) (b refName : List Char), resolveRefToUrl R refName = [] →
      ((strFind (b ++ ['>']) xlinkRef 0).isSome = true →
        buildNewOpeningTag R (b ++ ['>']) refName =
          (substitute (substitute (b ++ ['>']) plainRef "href=\"#\"".toList) xlinkRef
              "xlink:href=\"#\"".toList).dropLast
            ++ " onclick=\"".toList ++ onclickHandlerFor (escapeRefName refName)
            ++ "\"".toList ++ ['>']) ∧
      ((strFind (b ++ ['>']) xlinkRef 0).isSome = false →
        buildNewOpeningTag R (b ++ ['>']) refName =
          (substitute (b ++ ['>']) plainRef "href=\"#\"".toList).dropLast
            ++ " onclick=\"".toList ++ onclickHandlerFor (escapeRefName refName)
            ++ "\"".toList ++ ['>']) ∧
      (substitute (substitute (b ++ ['>']) plainRef "href=\"#\"".toList) xlinkRef
          "xlink:href=\"#\"".toList).getLast? = some '>' ∧
      (substitute (b ++ ['>']) plainRef "href=\"#\"".toList).getLast? = some '>') := by
  refine ⟨fun n => ?_, fun R b refName hurl =>
    buildNewOpeningTag_unresolved_shape R b refName hurl⟩
  have h1 : patchStep ruUnresolved ⟨c3in, 0⟩ = some ⟨c3out, 102⟩ := by decide
  have h2 : patchStep ruUnresolved ⟨c3out, 102⟩ = none := by decide
  show patchLoop ruUnresolved (n + 1 + 1) ⟨c3in, 0⟩ = c3out
  rw [patchLoop_succ, h1]
  show patchLoop ruUnresolved (n + 1) ⟨c3out, 102⟩ = c3out
  rw [patchLoop_succ, h2]

theorem c3_unresolved_exact_output_witness :
    patchBareRefs ruUnresolved 2 c3in = c3out ∧
    buildNewOpeningTag ruUnresolved ("<a href=\"\\ref\"".toList ++ ['>']) "foo".toList =
      (substitute ("<a href=\"\\ref\"".toList ++ ['>']) plainRef "href=\"#\"".toList).dropLast
        ++ " onclick=\"".toList ++ onclickHandlerFor (escapeRefName "foo".toList)
        ++ "\"".toList ++ ['>'] := by
  constructor
  · exact c3_unresolved_exact_output.1 0
  · exact (c3_unresolved_exact_output.2 ruUnresolved "<a href=\"\\ref\"".toList "foo".toList
      (by decide)).2.1 (by decide)


theorem buildNewOpeningTag_resolved_shape (R : Resolver) (tag refName : List Char)
    (hurl : resolveRefToUrl R refName ≠ []) :
    ((strFind tag xlinkRef 0).isSome = true →
      buildNewOpeningTag R tag refName =
        substitute
          (substitute tag plainRef
            ("href=\"".toList ++ resolveRefToUrl R refName ++ "\"".toList))
          xlinkRef
          ("xlink:href=\"".toList ++ resolveRefToUrl R refName ++ "\"".toList)) ∧
    ((strFind tag xlinkRef 0).isSome = false →
      buildNewOpeningTag R tag refName =
        substitute tag plainRef
          ("href=\"".toList ++ resolveRefToUrl R refName ++ "\"".toList)) := by
  have hple : plainRef ≠ [] := by decide
  have hie : (resolveRefToUrl R refName).isEmpty = false := by
    cases hu : resolveRefToUrl R refName with
    | nil => exact absurd hu hurl
    | cons a as => rfl
  have ht1 : (if (strFind tag plainRef 0).isSome = true
      then substitute tag plainRef
        ("href=\"".toList ++ resolveRefToUrl R refName ++ "\"".toList)
      else tag)
      = substitute tag plainRef
        ("href=\"".toList ++ resolveRefToUrl R refName ++ "\"".toList) := by
    by_cases hh : (strFind tag plainRef 0).isSome = true
    · rw [if_pos hh]
    · rw [if_neg hh]
      refine (substitute_id_of_strFind_none _ _ _ hple ?_).symm
      cases ho : strFind tag plainRef 0 with
      | none => rfl
      | some v => rw [ho] at hh; simp at hh
  constructor
  · intro hx
    simp only [buildNewOpeningTag, hie]
    rw [if_neg (by simp)]
    rw [ht1, if_pos hx]
  · intro hx
    simp only [buildNewOpeningTag, hie]
    rw [if_neg (by simp)]
    rw [ht1, if_neg (by simp [hx])]

/-- C4: a reference counts as resolved exactly when the descriptor carries a
non-empty file or a non-empty anchor (given that extension qualification
never empties a non-empty file name); when resolved the URL is the external
prefix, then the extension-qualified file when present, then `#` and the
anchor when present; on the spec's round-trip anchor the placeholder
attribute is bound verbatim to the resolved URL; and in general, for every
opening tag whose reference resolves, each present placeholder spelling is
replaced by the same attribute key bound verbatim to the URL (absent
spellings are untouched, since substitution is the identity without an
occurrence). -/
theorem c4_resolved_iff_and_url_shape :
    (∀ (file anchor refTag refName : List Char) (ep ax : List Char → List Char),
      (∀ s : List Char, s ≠ [] → ax s ≠ []) →
      (resolveRefToUrl ⟨fun _ => some ⟨file, anchor, refTag⟩, ep, ax⟩ refName ≠ [] ↔
        (file ≠ [] ∨ anchor ≠ [])) ∧
      ((file ≠ [] ∨ anchor ≠ []) →
        resolveRefToUrl ⟨fun _ => some ⟨file, anchor, refTag⟩, ep, ax⟩ refName =
          ep refTag ++ (if file ≠ [] then ax file else [])
            ++ (if anchor ≠ [] then '#' :: anchor else []))) ∧
    (∀ n : Nat, patchBareRefs rcResolved (n + 2) c3in = c4out) ∧
    (∀ (R : Resolver) (tag refName : List Char), resolveRefToUrl R refName ≠ [] →
      ((strFind tag xlinkRef 0).isSome = true →
        buildNewOpeningTag R tag refName =
          substitute
            (substitute tag plainRef
              ("href=\"".toList ++ resolveRefToUrl R refName ++ "\"".toList))
            xlinkRef
            ("xlink:href=\"".toList ++ resolveRefToUrl R refName ++ "\"".toList)) ∧
      ((strFind tag xlinkRef 0).isSome = false →
        buildNewOpeningTag R tag refName =
          substitute tag plainRef
            ("href=\"".toList ++ resolveRefToUrl R refName ++ "\"".toList))) := by
  refine ⟨?_, ?_, fun R tag refName hurl =>
    buildNewOpeningTag_resolved_shape R tag refName hurl⟩
  · intro file anchor refTag refName ep ax hax
    constructor
    · cases file with
      | nil =>
        cases anchor with
        | nil => simp [resolveRefToUrl]
        | cons a as => simp [resolveRefToUrl, List.append_eq_nil]
      | cons f fs =>
        have hx := hax (f :: fs) (by simp)
        cases anchor with
        | nil => simp [resolveRefToUrl, List.append_eq_nil, hx]
        | cons a as => simp [resolveRefToUrl, List.append_eq_nil, hx]
    · intro hres
      cases file with
      | nil =>
        cases anchor with
        | nil => simp at hres
        | cons a as => simp [resolveRefToUrl]
      | cons f fs =>
        cases anchor with
        | nil => simp [resolveRefToUrl]
        | cons a as => simp [resolveRefToUrl]
  · intro n
    have h1 : patchStep rcResolved ⟨c3in, 0⟩ = some ⟨c4out, 19⟩ := by decide
    have h2 : patchStep rcResolved ⟨c4out, 19⟩ = none := by decide
    show patchLoop rcResolved (n + 1 + 1) ⟨c3in, 0⟩ = c4out
    rw [patchLoop_succ, h1]
    show patchLoop rcResolved (n + 1) ⟨c4out, 19⟩ = c4out
    rw [patchLoop_succ, h2]

theorem c4_resolved_iff_and_url_shape_witness :
    resolveRefToUrl rcResolved "foo".toList = "foo.html".toList ∧
    patchBareRefs rcResolved 2 c3in = c4out ∧
    buildNewOpeningTag rcResolved "<a href=\"\\ref\">".toList "foo".toList =
      substitute "<a href=\"\\ref\">".toList plainRef
        ("href=\"".toList ++ resolveRefToUrl rcResolved "foo".toList ++ "\"".toList) := by
  refine ⟨?_, c4_resolved_iff_and_url_shape.2.1 0, ?_⟩
  · have h := (c4_resolved_iff_and_url_shape.1 "foo.html".toList [] [] "foo".toList
      (fun _ => []) (fun s => s) (fun s hs => hs)).2 (Or.inl (by decide))
    exact h.trans (by decide)
  · exact (c4_resolved_iff_and_url_shape.2.2 rcResolved "<a href=\"\\ref\">".toList
      "foo".toList (by decide)).2 (by decide)


/-! Lemmas for the general dual-attribute rewrite shape. -/

theorem headMatches_self_append : ∀ s z : List Char, headMatches s (s ++ z) = true := by
  intro s
  induction s with
  | nil => intro z; rfl
  | cons a as ih =>
    intro z
    have h2 : headMatches (a :: as) (a :: (as ++ z)) = (a == a && headMatches as (as ++ z)) := rfl
    rw [List.cons_append, h2, ih z]
    simp

theorem strFindAux_isSome_of_match (needle : List Char) (h0 : needle ≠ []) :
    ∀ l i j, headMatches needle (l.drop j) = true → (strFindAux needle l i).isSome = true := by
  intro l
  induction l with
  | nil =>
    intro i j hm
    rw [List.drop_nil] at hm
    cases needle with
    | nil => exact absurd rfl h0
    | cons a as => simp [headMatches] at hm
  | cons c rest ih =>
    intro i j hm
    simp only [strFindAux]
    by_cases hh : headMatches needle (c :: rest) = true
    · rw [if_pos hh]; rfl
    · rw [if_neg hh]
      cases j with
      | zero => rw [List.drop_zero] at hm; exact absurd hm hh
      | succ j =>
        rw [List.drop_succ_cons] at hm
        exact ih (i + 1) j hm

theorem strFind_isSome_of_match (hay needle : List Char) (j : Nat) (h0 : needle ≠ [])
    (hm : headMatches needle (hay.drop j) = true) : (strFind hay needle 0).isSome = true := by
  have hj : j < hay.length := by
    by_contra hcon
    have hd : hay.drop j = [] := List.drop_eq_nil_of_le (by omega)
    rw [hd] at hm
    cases needle with
    | nil => exact h0 rfl
    | cons a as => simp [headMatches] at hm
  unfold strFind
  rw [if_pos (by omega)]
  rw [List.drop_zero]
  exact strFindAux_isSome_of_match needle h0 hay 0 j hm

theorem strFindAux_min (needle : List Char) :
    ∀ l i j, strFindAux needle l i = some j →
      ∀ k, k < j - i → headMatches needle (l.drop k) = false := by
  intro l
  induction l with
  | nil => intro i j h; simp [strFindAux] at h
  | cons c rest ih =>
    intro i j h k hk
    simp only [strFindAux] at h
    by_cases hm : headMatches needle (c :: rest) = true
    · rw [if_pos hm] at h
      obtain rfl : i = j := by injection h
      exact absurd hk (by omega)
    · rw [if_neg hm] at h
      cases k with
      | zero => rw [List.drop_zero]; exact Bool.eq_false_iff.mpr fun hh => hm hh
      | succ k =>
        rw [List.drop_succ_cons]
        refine ih (i + 1) j h k ?_
        have := (strFindAux_spec needle rest (i + 1) j h).1
        omega

theorem strFind_min (hay needle : List Char) (i : Nat)
    (h : strFind hay needle 0 = some i) :
    ∀ j, j < i → headMatches needle (hay.drop j) = false := by
  intro j hj
  unfold strFind at h
  by_cases hs : 0 < hay.length
  · rw [if_pos hs] at h
    have hx := strFindAux_min needle (hay.drop 0) 0 i h j (by omega)
    rwa [List.drop_zero] at hx
  · rw [if_neg hs] at h
    exact absurd h (by simp)

theorem substitute_head_match (src dst z : List Char) (h0 : src ≠ []) :
    substitute (src ++ z) src dst = dst ++ substitute z src dst := by
  cases src with
  | nil => exact absurd rfl h0
  | cons c cs =>
    rw [List.cons_append, substitute_cons]
    have hm : headMatches (c :: cs) (c :: (cs ++ z)) = true := by
      have := headMatches_self_append (c :: cs) z
      simpa [List.cons_append] using this
    rw [if_pos (by simp [hm])]
    congr 1
    have hd : List.drop ((c :: cs).length - 1) (cs ++ z) = z := by
      simp only [List.length_cons, Nat.add_sub_cancel]
      exact List.drop_left cs z
    rw [hd]

theorem substitute_append_clean (src dst : List Char) :
    ∀ xs ys, (∀ j, j < xs.length → headMatches src ((xs ++ ys).drop j) = false) →
      substitute (xs ++ ys) src dst = xs ++ substitute ys src dst := by
  intro xs
  induction xs with
  | nil => intro ys _; rw [List.nil_append, List.nil_append]
  | cons c xs ih =>
    intro ys h
    rw [List.cons_append, substitute_cons]
    have h0 := h 0 (by simp)
    rw [List.drop_zero, List.cons_append] at h0
    rw [if_neg (by simp [h0])]
    rw [List.cons_append]
    refine congrArg (c :: ·) (ih ys fun j hj => ?_)
    have hjj := h (j + 1) (by simpa using Nat.succ_lt_succ hj)
    rwa [List.cons_append, List.drop_succ_cons] at hjj

theorem buildNewOpeningTag_dual_shape (R : Resolver) (refName pre mid post : List Char)
    (hfirst : strFind (pre ++ plainRef ++ mid ++ xlinkRef ++ post ++ ['>']) plainRef 0
        = some pre.length)
    (hsecond : strFind (mid ++ xlinkRef ++ post ++ ['>']) plainRef 0
        = some (mid.length + 6))
    (hrest : strFind (post ++ ['>']) plainRef 0 = none) :
    (resolveRefToUrl R refName ≠ [] →
      strFind (pre ++ ("href=\"".toList ++ resolveRefToUrl R refName ++ "\"".toList)
          ++ mid ++ "xlink:".toList
          ++ ("href=\"".toList ++ resolveRefToUrl R refName ++ "\"".toList)
          ++ post ++ ['>']) xlinkRef 0 = none →
      buildNewOpeningTag R (pre ++ plainRef ++ mid ++ xlinkRef ++ post ++ ['>']) refName =
        pre ++ ("href=\"".toList ++ resolveRefToUrl R refName ++ "\"".toList)
          ++ mid ++ "xlink:".toList
          ++ ("href=\"".toList ++ resolveRefToUrl R refName ++ "\"".toList)
          ++ post ++ ['>']) ∧
    (resolveRefToUrl R refName = [] →
      strFind (pre ++ "href=\"#\"".toList ++ mid ++ "xlink:".toList ++ "href=\"#\"".toList
          ++ post ++ ['>']) xlinkRef 0 = none →
      buildNewOpeningTag R (pre ++ plainRef ++ mid ++ xlinkRef ++ post ++ ['>']) refName =
        pre ++ "href=\"#\"".toList ++ mid ++ "xlink:".toList ++ "href=\"#\"".toList ++ post
          ++ " onclick=\"".toList ++ onclickHandlerFor (escapeRefName refName)
          ++ "\"".toList ++ ['>']) := by
  have hple : plainRef ≠ [] := by decide
  have hxle : xlinkRef ≠ [] := by decide
  have hxp : xlinkRef = "xlink:".toList ++ plainRef := by decide
  have e1 : pre ++ plainRef ++ mid ++ xlinkRef ++ post ++ ['>']
      = pre ++ (plainRef ++ (mid ++ xlinkRef ++ post ++ ['>'])) := by
    simp [List.append_assoc]
  have e2 : mid ++ xlinkRef ++ post ++ ['>']
      = (mid ++ "xlink:".toList) ++ (plainRef ++ (post ++ ['>'])) := by
    rw [hxp]
    simp [List.append_assoc]
  have hS1 : ∀ r : List Char,
      substitute (pre ++ plainRef ++ mid ++ xlinkRef ++ post ++ ['>']) plainRef r
        = pre ++ r ++ mid ++ "xlink:".toList ++ r ++ post ++ ['>'] := by
    intro r
    rw [e1, substitute_append_clean plainRef r pre _ ?hclean1]
    rw [substitute_head_match plainRef r _ hple]
    rw [e2, substitute_append_clean plainRef r _ _ ?hclean2]
    rw [substitute_head_match plainRef r _ hple]
    rw [substitute_id_of_strFind_none _ _ _ hple hrest]
    simp [List.append_assoc]
    case hclean1 =>
      intro j hj
      rw [← e1]
      exact strFind_min _ _ _ hfirst j hj
    case hclean2 =>
      intro j hj
      rw [← e2]
      refine strFind_min _ _ _ hsecond j ?_
      have hx6 : ("xlink:".toList).length = 6 := by decide
      simp [List.length_append, hx6] at hj
      omega
  have hHref : (strFind (pre ++ plainRef ++ mid ++ xlinkRef ++ post ++ ['>'])
      plainRef 0).isSome = true := by
    rw [hfirst]; rfl
  have hXlink : (strFind (pre ++ plainRef ++ mid ++ xlinkRef ++ post ++ ['>'])
      xlinkRef 0).isSome = true := by
    refine strFind_isSome_of_match _ _ ((pre ++ plainRef ++ mid).length) hxle ?_
    have e3 : pre ++ plainRef ++ mid ++ xlinkRef ++ post ++ ['>']
        = (pre ++ plainRef ++ mid) ++ (xlinkRef ++ (post ++ ['>'])) := by
      simp [List.append_assoc]
    rw [e3, List.drop_left]
    exact headMatches_self_append xlinkRef _
  constructor
  · intro hurl h4
    have hie : (resolveRefToUrl R refName).isEmpty = false := by
      cases hu : resolveRefToUrl R refName with
      | nil => exact absurd hu hurl
      | cons a as => rfl
    simp only [buildNewOpeningTag, hie]
    rw [if_neg (by simp)]
    rw [if_pos hXlink, if_pos hHref, hS1]
    exact substitute_id_of_strFind_none _ _ _ hxle h4
  · intro hurl h4
    simp only [buildNewOpeningTag, hurl]
    rw [if_pos (by decide : (List.isEmpty ([] : List Char)) = true)]
    rw [if_pos hXlink, if_pos hHref, hS1]
    rw [substitute_id_of_strFind_none _ _ _ hxle h4]
    rw [charFindRevLast_concat_gt]
    show List.take (pre ++ "href=\"#\"".toList ++ mid ++ "xlink:".toList
          ++ "href=\"#\"".toList ++ post).length
        (pre ++ "href=\"#\"".toList ++ mid ++ "xlink:".toList ++ "href=\"#\"".toList ++ post
          ++ ['>'])
        ++ " onclick=\"".toList ++ onclickHandlerFor (escapeRefName refName) ++ "\"".toList
        ++ List.drop (pre ++ "href=\"#\"".toList ++ mid ++ "xlink:".toList
          ++ "href=\"#\"".toList ++ post).length
        (pre ++ "href=\"#\"".toList ++ mid ++ "xlink:".toList ++ "href=\"#\"".toList ++ post
          ++ ['>']) = _
    rw [List.take_left, List.drop_left]


/-- C7: dual-attribute consistency.  Concretely, the spec's dual-spelling
anchor is rewritten to both attributes bound to the same URL (resolved) or
both bound to `#` with exactly one shared onclick (unresolved), at every
fuel.  Generally, for every opening tag of the form
`pre ++ href="\ref" ++ mid ++ xlink:href="\ref" ++ post ++ '>'` whose only
placeholder occurrences are those two (stated by the positions of the first
and second find, and the absence of any later one) and whose substituted tag
carries no residual namespaced placeholder, the rewrite binds both
attribute keys to the same outcome: the same URL verbatim in the resolved
branch, or `#` twice plus a single onclick spliced before the final `>` in
the unresolved branch. -/
theorem c7_dual_attributes_consistent :
    (∀ n : Nat, patchBareRefs rcResolved (n + 2) c7in = c7outRes) ∧
    (∀ n : Nat, patchBareRefs ruUnresolved (n + 2) c7in = c7outUnres) ∧
    countOcc onclickKey c7outUnres = 1 ∧
    (∀ (R : Resolver) (refName pre mid post : List Char),
      strFind (pre ++ plainRef ++ mid ++ xlinkRef ++ post ++ ['>']) plainRef 0
          = some pre.length →
      strFind (mid ++ xlinkRef ++ post ++ ['>']) plainRef 0 = some (mid.length + 6) →
      strFind (post ++ ['>']) plainRef 0 = none →
      (resolveRefToUrl R refName ≠ [] →
        strFind (pre ++ ("href=\"".toList ++ resolveRefToUrl R refName ++ "\"".toList)
            ++ mid ++ "xlink:".toList
            ++ ("href=\"".toList ++ resolveRefToUrl R refName ++ "\"".toList)
            ++ post ++ ['>']) xlinkRef 0 = none →
        buildNewOpeningTag R (pre ++ plainRef ++ mid ++ xlinkRef ++ post ++ ['>']) refName =
          pre ++ ("href=\"".toList ++ resolveRefToUrl R refName ++ "\"".toList)
            ++ mid ++ "xlink:".toList
            ++ ("href=\"".toList ++ resolveRefToUrl R refName ++ "\"".toList)
            ++ post ++ ['>']) ∧
      (resolveRefToUrl R refName = [] →
        strFind (pre ++ "href=\"#\"".toList ++ mid ++ "xlink:".toList ++ "href=\"#\"".toList
            ++ post ++ ['>']) xlinkRef 0 = none →
        buildNewOpeningTag R (pre ++ plainRef ++ mid ++ xlinkRef ++ post ++ ['>']) refName =
          pre ++ "href=\"#\"".toList ++ mid ++ "xlink:".toList ++ "href=\"#\"".toList ++ post
            ++ " onclick=\"".toList ++ onclickHandlerFor (escapeRefName refName)
            ++ "\"".toList ++ ['>'])) := by
  refine ⟨fun n => ?_, fun n => ?_, by decide,
    fun R refName pre mid post h1 h2 h3 =>
      buildNewOpeningTag_dual_shape R refName pre mid post h1 h2 h3⟩
  · have h1 : patchStep rcResolved ⟨c7in, 0⟩ = some ⟨c7outRes, 41⟩ := by decide
    have h2 : patchStep rcResolved ⟨c7outRes, 41⟩ = none := by decide
    show patchLoop rcResolved (n + 1 + 1) ⟨c7in, 0⟩ = c7outRes
    rw [patchLoop_succ, h1]
    show patchLoop rcResolved (n + 1) ⟨c7outRes, 41⟩ = c7outRes
    rw [patchLoop_succ, h2]
  · have h3 : patchStep ruUnresolved ⟨c7in, 0⟩ = some ⟨c7outUnres, 117⟩ := by decide
    have h4 : patchStep ruUnresolved ⟨c7outUnres, 117⟩ = none := by decide
    show patchLoop ruUnresolved (n + 1 + 1) ⟨c7in, 0⟩ = c7outUnres
    rw [patchLoop_succ, h3]
    show patchLoop ruUnresolved (n + 1) ⟨c7outUnres, 117⟩ = c7outUnres
    rw [patchLoop_succ, h4]

theorem c7_dual_attributes_consistent_witness :
    patchBareRefs rcResolved 2 c7in = c7outRes ∧
    buildNewOpeningTag rcResolved
        ("<a ".toList ++ plainRef ++ " ".toList ++ xlinkRef ++ ([] : List Char) ++ ['>'])
        "foo".toList =
      "<a ".toList ++ ("href=\"".toList ++ resolveRefToUrl rcResolved "foo".toList
          ++ "\"".toList)
        ++ " ".toList ++ "xlink:".toList
        ++ ("href=\"".toList ++ resolveRefToUrl rcResolved "foo".toList ++ "\"".toList)
        ++ ([] : List Char) ++ ['>'] ∧
    buildNewOpeningTag ruUnresolved
        ("<a ".toList ++ plainRef ++ " ".toList ++ xlinkRef ++ ([] : List Char) ++ ['>'])
        "foo".toList =
      "<a ".toList ++ "href=\"#\"".toList ++ " ".toList ++ "xlink:".toList
        ++ "href=\"#\"".toList ++ ([] : List Char)
        ++ " onclick=\"".toList ++ onclickHandlerFor (escapeRefName "foo".toList)
        ++ "\"".toList ++ ['>'] := by
  refine ⟨c7_dual_attributes_consistent.1 0, ?_, ?_⟩
  · exact (c7_dual_attributes_consistent.2.2.2 rcResolved "foo".toList "<a ".toList " ".toList []
      (by decide) (by decide) (by decide)).1 (by decide) (by decide)
  · exact (c7_dual_attributes_consistent.2.2.2 ruUnresolved "foo".toList "<a ".toList " ".toList []
      (by decide) (by decide) (by decide)).2 (by decide) (by decide)

end SvgPatch
